import Mathlib

/-!
Verification of the weighted-workload benchmark engine
(`pkg/bench` iceberg-weighted benchmark: `Prepare`, `Start`, `runReader`,
`runWriter`, `sampleTableIndex`, `Cleanup`).

Floating-point values of the source are modelled as real numbers; the
per-worker pseudo-random generator (`rand.New(rand.NewSource(seed))`,
consumed only through `NormFloat64`) is modelled as a stream of real
normal draws together with a cursor.
-/

namespace Warp

/-- A worker-owned random stream: `stream` is the sequence of values
successive `NormFloat64` calls would produce, `pos` is how many draws
have already been consumed.  Go documents `rand.New(rand.NewSource(seed))`
to be a deterministic function of the seed, so an identical seed yields an
identical `stream`. -/
structure Rng where
  stream : ℕ → ℝ
  pos : ℕ

/-- One `rng.NormFloat64()` call: yields the next draw and advances the cursor. -/
def Rng.normFloat64 (g : Rng) : ℝ × Rng := (g.stream g.pos, ⟨g.stream, g.pos + 1⟩)

/-- `WeightedDistribution` from the source: worker count, mean position and
variance of the truncated-normal sampling profile. -/
structure WeightedDistribution where
  Count : ℤ
  Mean : ℝ
  Variance : ℝ

/-- The attempt cap `maxSamples` of `sampleTableIndex`. -/
def maxSamples : ℕ := 100000

/-- The rejection loop of `sampleTableIndex`: draw `NormFloat64()*stddev + mean`
until a draw lands in `[0,1]` or the fuel (attempt cap) runs out; on
exhaustion the Go variable `value` keeps its zero initial value. -/
noncomputable def rejectLoop (stddev mean : ℝ) : ℕ → Rng → ℝ × Rng
  | 0, g => (0, g)
  | k + 1, g =>
    let d := g.normFloat64
    let sample := d.1 * stddev + mean
    if 0 ≤ sample ∧ sample ≤ 1 then (sample, d.2) else rejectLoop stddev mean k d.2

/-- Go conversion `int(x)` from a float: truncation toward zero. -/
noncomputable def goInt (x : ℝ) : ℤ := if x < 0 then ⌈x⌉ else ⌊x⌋

/-- `sampleTableIndex(rng, dist, numTables)`: rejection-sample a value in
`[0,1]` (default 0 on exhaustion), scale by `numTables`, truncate to an
integer and clamp into `[0, numTables-1]`.  Returns the index together with
the advanced random stream (the Go function mutates `rng` in place). -/
noncomputable def sampleTableIndex (g : Rng) (dist : WeightedDistribution)
    (numTables : ℤ) : ℤ × Rng :=
  let stddev := Real.sqrt dist.Variance
  let r := rejectLoop stddev dist.Mean maxSamples g
  let value := r.1
  let idx0 := goInt (value * (numTables : ℝ))
  let idx1 := if idx0 ≥ numTables then numTables - 1 else idx0
  let idx2 := if idx1 < 0 then 0 else idx1
  (idx2, r.2)

/-- The sequence of indices produced by repeatedly calling `sampleTableIndex`
on the same worker-owned stream (as a worker loop does), as a list of the
first `k` sampled indices. -/
noncomputable def sampleIndexSeq (dist : WeightedDistribution) (numTables : ℤ) :
    Rng → ℕ → List ℤ
  | _, 0 => []
  | g, k + 1 =>
    let r := sampleTableIndex g dist numTables
    r.1 :: sampleIndexSeq dist numTables r.2 k

/-- Worker role: `runReader` issues read-style fetches, `runWriter`
write-style mutations. -/
inductive Role where
  | reader
  | writer
deriving DecidableEq

/-- One spawned worker of `Start`: its role, the index of its distribution
group, its global thread id, its distribution and its derived seed. -/
structure Spawn where
  role : Role
  distIdx : ℕ
  thread : ℕ
  dist : WeightedDistribution
  seed : ℤ

/-- The inner loop of `Start` over one distribution group: spawn
`dist.Count` workers (Go's `for i := 0; i < dist.Count; i++`, hence
`Count.toNat` iterations), thread ids continuing from `t0`, each with seed
`base + (distIdx+1)*mul + threadID` (`mul` is 1000 for readers, 2000 for
writers). -/
def spawnGroup (role : Role) (mul base : ℤ) (distIdx t0 : ℕ)
    (d : WeightedDistribution) : List Spawn :=
  (List.range d.Count.toNat).map fun i =>
    { role := role, distIdx := distIdx, thread := t0 + i, dist := d,
      seed := base + ((distIdx : ℤ) + 1) * mul + ((t0 + i : ℕ) : ℤ) }

/-- The outer loop of `Start` over a list of distribution groups, threading
the global thread-id counter. -/
def spawnGroups (role : Role) (mul base : ℤ) :
    ℕ → ℕ → List WeightedDistribution → List Spawn
  | _, _, [] => []
  | distIdx, t0, d :: rest =>
    spawnGroup role mul base distIdx t0 d ++
      spawnGroups role mul base (distIdx + 1) (t0 + d.Count.toNat) rest

/-- Total number of workers a list of groups spawns. -/
def totalCount (ds : List WeightedDistribution) : ℕ :=
  (ds.map fun d => d.Count.toNat).sum

/-- The workers spawned by `Start`: all reader groups first (seed offset
multiplier 1000, group indices restarting at 0), then all writer groups
(multiplier 2000, group indices restarting at 0), with one global thread-id
counter running across both. -/
def startSpawns (base : ℤ) (readers writers : List WeightedDistribution) :
    List Spawn :=
  spawnGroups Role.reader 1000 base 0 0 readers ++
    spawnGroups Role.writer 2000 base 0 (totalCount readers) writers

/-- The derived per-worker seeds, in spawn order. -/
def seedsOf (base : ℤ) (readers writers : List WeightedDistribution) : List ℤ :=
  (startSpawns base readers writers).map fun s => s.seed

/-- A table identifier of the target universe (namespace and name), as
used by the workers. -/
structure TableInfo where
  Namespace : String
  Name : String

/-- The Operation record, modelled from its construction in
`runReader`/`runWriter`: `Thread` is `uint32(thread)`, `Start` and `End`
are `time.Now()` readings, `Err` is the error string (Go zero value `""`
when the request succeeded). -/
structure Operation where
  OpType : String
  Thread : ℕ
  File : String
  ObjPerOp : ℕ
  Endpoint : String
  Start : ℤ
  End : ℤ
  Err : String

/-- The read-style operation-type tag (an opaque constant of the
surrounding package; its concrete value is irrelevant here). -/
def OpTableGet : String := "TABLE_GET"

/-- The write-style operation-type tag. -/
def OpTableUpdate : String := "TABLE_UPDATE"

/-- One entry of a `CommitTableRequest`. -/
structure TableUpdate where
  Action : String
  Updates : List (String × String)

/-- The commit request a writer sends (`set-properties` with a
`last_updated` timestamp property). -/
structure CommitTableRequest where
  Updates : List TableUpdate

/-- Go's `uint32(thread)` conversion. -/
def uint32 (n : ℕ) : ℕ := n % 2 ^ 32

/-- `op.Err` stays the zero value `""` unless the request returned an
error `e`, in which case it becomes `e.Error()`. -/
def errString (e : Option String) : String := e.getD ""

/-- The external world one worker observes, one entry per loop iteration
`n`: whether `ctx.Done()` is ready, whether `rpsLimit` returns a non-nil
error, the error of the n-th client request (`none` on success), and the
worker's successive `time.Now()` readings (`clock k` is the k-th call). -/
structure WorkerEnv where
  doneAt : ℕ → Bool
  rpsDone : ℕ → Bool
  reqErr : ℕ → Option String
  clock : ℕ → ℤ

/-- Externally visible worker events: the blocking receive on the start
channel `wait`, and a send of one Operation into the Collector sink. -/
inductive WEvent where
  | recvStart
  | send (op : Operation)

/-- The request loop of `runReader` as an event trace; `n` counts
iterations and the fuel bounds the observed trace (the Go loop runs until
cancellation).  Each iteration non-blockingly checks `ctx.Done()`, then
`rpsLimit`, then samples a table index, issues `GetTable` with `time.Now()`
readings `2n` (before) and `2n+1` (after), and sends exactly one Operation
to the collector. -/
noncomputable def runReaderLoop (env : WorkerEnv) (catalog : String)
    (tables : List TableInfo) (dist : WeightedDistribution) (thread : ℕ) :
    Rng → ℕ → ℕ → List WEvent
  | _, _, 0 => []
  | g, n, f + 1 =>
    if env.doneAt n then []
    else if env.rpsDone n then []
    else
      let r := sampleTableIndex g dist (tables.length : ℤ)
      let tbl := tables.getD r.1.toNat ⟨"", ""⟩
      let op : Operation :=
        { OpType := OpTableGet, Thread := uint32 thread,
          File := catalog ++ "/" ++ tbl.Namespace ++ "/" ++ tbl.Name,
          ObjPerOp := 1, Endpoint := catalog,
          Start := env.clock (2 * n), End := env.clock (2 * n + 1),
          Err := errString (env.reqErr n) }
      WEvent.send op :: runReaderLoop env catalog tables dist thread r.2 (n + 1) f

/-- `runReader`: receive on the start channel, then run the request loop. -/
noncomputable def runReader (env : WorkerEnv) (catalog : String)
    (tables : List TableInfo) (dist : WeightedDistribution) (thread : ℕ)
    (g : Rng) (fuel : ℕ) : List WEvent :=
  WEvent.recvStart :: runReaderLoop env catalog tables dist thread g 0 fuel

/-- The request loop of `runWriter`: same structure as the reader loop, but
each iteration reads `time.Now()` three times (reading `3n` for the
`last_updated` property of the commit request, `3n+1` and `3n+2` around
`UpdateTable`) and tags the Operation `OpTableUpdate`. -/
noncomputable def runWriterLoop (env : WorkerEnv) (catalog : String)
    (tables : List TableInfo) (dist : WeightedDistribution) (thread : ℕ) :
    Rng → ℕ → ℕ → List WEvent
  | _, _, 0 => []
  | g, n, f + 1 =>
    if env.doneAt n then []
    else if env.rpsDone n then []
    else
      let r := sampleTableIndex g dist (tables.length : ℤ)
      let tbl := tables.getD r.1.toNat ⟨"", ""⟩
      let _req : CommitTableRequest :=
        { Updates := [{ Action := "set-properties",
                        Updates := [("last_updated", toString (env.clock (3 * n)))] }] }
      let op : Operation :=
        { OpType := OpTableUpdate, Thread := uint32 thread,
          File := catalog ++ "/" ++ tbl.Namespace ++ "/" ++ tbl.Name,
          ObjPerOp := 1, Endpoint := catalog,
          Start := env.clock (3 * n + 1), End := env.clock (3 * n + 2),
          Err := errString (env.reqErr n) }
      WEvent.send op :: runWriterLoop env catalog tables dist thread r.2 (n + 1) f

/-- `runWriter`: receive on the start channel, then run the request loop. -/
noncomputable def runWriter (env : WorkerEnv) (catalog : String)
    (tables : List TableInfo) (dist : WeightedDistribution) (thread : ℕ)
    (g : Rng) (fuel : ℕ) : List WEvent :=
  WEvent.recvStart :: runWriterLoop env catalog tables dist thread g 0 fuel

/-- Number of request attempts a worker loop performs within the given
fuel starting at iteration `n`: it stops at the first iteration where the
context is done or the rate limiter signals end-of-run. -/
def loopAttempts (env : WorkerEnv) : ℕ → ℕ → ℕ
  | 0, _ => 0
  | f + 1, n =>
    if env.doneAt n then 0
    else if env.rpsDone n then 0
    else loopAttempts env f (n + 1) + 1

/-- The worker's random stream after `k` sampler calls. -/
noncomputable def rngIter (dist : WeightedDistribution) (N : ℤ) : ℕ → Rng → Rng
  | 0, g => g
  | k + 1, g => rngIter dist N k (sampleTableIndex g dist N).2

/-- The Operation the reader loop emits at iteration `n` with stream
state `g`. -/
noncomputable def readerMkOp (env : WorkerEnv) (catalog : String)
    (tables : List TableInfo) (dist : WeightedDistribution) (thread : ℕ)
    (n : ℕ) (g : Rng) : Operation :=
  let r := sampleTableIndex g dist (tables.length : ℤ)
  let tbl := tables.getD r.1.toNat ⟨"", ""⟩
  { OpType := OpTableGet, Thread := uint32 thread,
    File := catalog ++ "/" ++ tbl.Namespace ++ "/" ++ tbl.Name,
    ObjPerOp := 1, Endpoint := catalog,
    Start := env.clock (2 * n), End := env.clock (2 * n + 1),
    Err := errString (env.reqErr n) }

/-- The Operation the writer loop emits at iteration `n` with stream
state `g`. -/
noncomputable def writerMkOp (env : WorkerEnv) (catalog : String)
    (tables : List TableInfo) (dist : WeightedDistribution) (thread : ℕ)
    (n : ℕ) (g : Rng) : Operation :=
  let r := sampleTableIndex g dist (tables.length : ℤ)
  let tbl := tables.getD r.1.toNat ⟨"", ""⟩
  { OpType := OpTableUpdate, Thread := uint32 thread,
    File := catalog ++ "/" ++ tbl.Namespace ++ "/" ++ tbl.Name,
    ObjPerOp := 1, Endpoint := catalog,
    Start := env.clock (3 * n + 1), End := env.clock (3 * n + 2),
    Err := errString (env.reqErr n) }

/-- The Operations a trace sends to the Collector sink, in order. -/
def sentOps (t : List WEvent) : List Operation :=
  t.filterMap fun e =>
    match e with
    | WEvent.send op => some op
    | WEvent.recvStart => none

/-- Error type of `Prepare`: a descriptive configuration error, or an
underlying transport error wrapped with context. -/
inductive PrepError where
  | config (msg : String)
  | wrapped (ctxMsg : String) (cause : String)
deriving DecidableEq

/-- What `Prepare` observes of its external collaborators: the target
universe resolved by the tree generator, and the outcome of a `GetTable`
probe (`none` on success, `some e` with the transport error `e`). -/
structure PrepareEnv where
  tables : List TableInfo
  getTable : String → String → String → Option String

/-- `Prepare(ctx)`: resolve the target universe, fail with a descriptive
configuration error if it is empty, then probe connectivity with one
`GetTable` call against the first target, wrapping a probe failure;
on success the table list is retained for `Start`. -/
def Prepare (catalog : String) (env : PrepareEnv) :
    Except PrepError (List TableInfo) :=
  match env.tables with
  | [] => Except.error (PrepError.config "no tables found: check tree configuration")
  | t :: _ =>
    match env.getTable catalog t.Namespace t.Name with
    | some e => Except.error (PrepError.wrapped "cannot access table" e)
    | none => Except.ok env.tables

/-- Externally visible effects of a lifecycle method: a status report, or
a call to the external catalog client. -/
inductive Effect where
  | status (msg : String)
  | clientGet (catalog ns name : String)
  | clientUpdate (catalog ns name : String)

/-- Whether an effect is a call to the external catalog client. -/
def isClientCall : Effect → Bool
  | Effect.status _ => false
  | Effect.clientGet _ _ _ => true
  | Effect.clientUpdate _ _ _ => true

/-- `Cleanup` of the weighted workload: it only reports a status message
and returns, leaving the benchmark state (the resolved table list)
untouched. -/
def Cleanup (tables : List TableInfo) : List TableInfo × List Effect :=
  (tables, [Effect.status "Cleanup: skipping (weighted benchmark does not delete data)"])

/-- A concrete worker environment used by witnesses: never cancelled, no
rate-limit stop, every request succeeds, constant clock. -/
def envW : WorkerEnv := ⟨fun _ => false, fun _ => false, fun _ => none, fun _ => 0⟩

/-- C1: for every random stream, every Distribution (any mean, any variance)
and every target-universe size `N ≥ 1`, `sampleTableIndex` returns an index
in `[0, N-1]`. -/
theorem sampleTableIndex_mem_range (g : Rng) (dist : WeightedDistribution)
    (N : ℤ) (h : 1 ≤ N) :
    0 ≤ (sampleTableIndex g dist N).1 ∧ (sampleTableIndex g dist N).1 ≤ N - 1 := by
  unfold sampleTableIndex
  dsimp only
  split_ifs with h1 h2 <;> omega

/-- Witness for C1 at a concrete stream, distribution and `N = 3`. -/
theorem sampleTableIndex_mem_range_witness :
    0 ≤ (sampleTableIndex ⟨fun _ => 0, 0⟩ ⟨1, 0, 0⟩ 3).1 ∧
      (sampleTableIndex ⟨fun _ => 0, 0⟩ ⟨1, 0, 0⟩ 3).1 ≤ 3 - 1 :=
  sampleTableIndex_mem_range ⟨fun _ => 0, 0⟩ ⟨1, 0, 0⟩ 3 (by norm_num)

/-- C9: with a single-table universe (`N = 1`) the sampler returns index 0
for every random stream and every Distribution. -/
theorem sampleTableIndex_single_table (g : Rng) (dist : WeightedDistribution) :
    (sampleTableIndex g dist 1).1 = 0 := by
  unfold sampleTableIndex
  dsimp only
  split_ifs with h1 h2 <;> omega

theorem rejectLoop_pos_le (stddev mean : ℝ) :
    ∀ (k : ℕ) (g : Rng), (rejectLoop stddev mean k g).2.pos ≤ g.pos + k := by
  intro k
  induction k with
  | zero => intro g; simp [rejectLoop]
  | succ n ih =>
    intro g
    rw [rejectLoop]
    dsimp only [Rng.normFloat64]
    split_ifs with h
    · simp
    · have := ih ⟨g.stream, g.pos + 1⟩
      simp only at this ⊢
      omega

theorem rejectLoop_exhausted (stddev mean : ℝ) :
    ∀ (k : ℕ) (g : Rng),
      (∀ i < k, ¬(0 ≤ g.stream (g.pos + i) * stddev + mean ∧
        g.stream (g.pos + i) * stddev + mean ≤ 1)) →
      (rejectLoop stddev mean k g).1 = 0 := by
  intro k
  induction k with
  | zero => intro g _; simp [rejectLoop]
  | succ n ih =>
    intro g hrej
    rw [rejectLoop]
    dsimp only [Rng.normFloat64]
    have h0 := hrej 0 (Nat.succ_pos n)
    rw [Nat.add_zero] at h0
    rw [if_neg h0]
    apply ih ⟨g.stream, g.pos + 1⟩
    intro i hi
    have := hrej (i + 1) (by omega)
    simpa [Nat.add_assoc, Nat.add_comm 1 i] using this

/-- C2: the sampler consumes at most `maxSamples = 10^5` draws from the
random stream (it cannot loop unboundedly), and when no draw within the
attempt cap lands in `[0,1]` it falls back to the zero default, which maps
to index 0. -/
theorem sampleTableIndex_bounded_and_fallback (g : Rng)
    (dist : WeightedDistribution) (N : ℤ) :
    (sampleTableIndex g dist N).2.pos ≤ g.pos + maxSamples ∧
    ((∀ i < maxSamples,
        ¬(0 ≤ g.stream (g.pos + i) * Real.sqrt dist.Variance + dist.Mean ∧
          g.stream (g.pos + i) * Real.sqrt dist.Variance + dist.Mean ≤ 1)) →
      (sampleTableIndex g dist N).1 = 0) := by
  constructor
  · unfold sampleTableIndex
    dsimp only
    exact rejectLoop_pos_le _ _ maxSamples g
  · intro hrej
    unfold sampleTableIndex
    dsimp only
    have hval := rejectLoop_exhausted (Real.sqrt dist.Variance) dist.Mean
      maxSamples g hrej
    rw [hval]
    have : goInt (0 * (N : ℝ)) = 0 := by
      simp [goInt]
    rw [this]
    split_ifs with h1 h2 <;> omega

/-- Witness for C2: a degenerate distribution (`mean = 2`, `variance = 0`)
for which every draw is rejected, on a concrete stream with `N = 5`:
the draw count stays within the cap and the returned index is 0. -/
theorem sampleTableIndex_bounded_and_fallback_witness :
    (sampleTableIndex ⟨fun _ => 0, 0⟩ ⟨1, 2, 0⟩ 5).2.pos ≤ 0 + maxSamples ∧
      (sampleTableIndex ⟨fun _ => 0, 0⟩ ⟨1, 2, 0⟩ 5).1 = 0 := by
  refine ⟨(sampleTableIndex_bounded_and_fallback ⟨fun _ => 0, 0⟩ ⟨1, 2, 0⟩ 5).1, ?_⟩
  refine (sampleTableIndex_bounded_and_fallback ⟨fun _ => 0, 0⟩ ⟨1, 2, 0⟩ 5).2 ?_
  intro i _ h
  norm_num at h

/-- C3: the sampling loop is deterministic.  Go's generator is a pure
function of the seed, so two workers given identical seeds observe
identical draw streams; this theorem states that identical streams (and
cursor), identical Distribution and identical `N` yield an identical
sequence of sampled indices, for every run length. -/
theorem sampleIndexSeq_deterministic (g1 g2 : Rng)
    (hs : g1.stream = g2.stream) (hp : g1.pos = g2.pos)
    (dist : WeightedDistribution) (N : ℤ) (k : ℕ) :
    sampleIndexSeq dist N g1 k = sampleIndexSeq dist N g2 k := by
  obtain ⟨s1, p1⟩ := g1
  obtain ⟨s2, p2⟩ := g2
  dsimp only at hs hp
  subst hs; subst hp
  rfl

/-- Witness for C3: two identically-seeded streams produce the same index
sequence of length 2. -/
theorem sampleIndexSeq_deterministic_witness :
    sampleIndexSeq ⟨1, 0, 0⟩ 3 ⟨fun _ => 0, 0⟩ 2 =
      sampleIndexSeq ⟨1, 0, 0⟩ 3 ⟨fun _ => 0, 0⟩ 2 :=
  sampleIndexSeq_deterministic ⟨fun _ => 0, 0⟩ ⟨fun _ => 0, 0⟩ rfl rfl ⟨1, 0, 0⟩ 3 2

set_option maxRecDepth 10000

/-- Counterexample to C4 as stated: with base seed 0, three reader groups
of count 1 and one writer group of count 1001, reader thread 2 (group
offset 3000) and writer thread 1002 (group offset 2000) both derive
seed 3002, so the per-worker seeds are not pairwise distinct. -/
theorem start_seed_collision_counterexample :
    ¬ (seedsOf 0 [⟨1, 0, 0⟩, ⟨1, 0, 0⟩, ⟨1, 0, 0⟩] [⟨1001, 0, 0⟩]).Nodup := by
  intro hnd
  have h1 := List.nodup_iff_count_le_one.mp hnd 3002
  have h2 : 2 ≤ List.count (3002 : ℤ)
      (seedsOf 0 [⟨1, 0, 0⟩, ⟨1, 0, 0⟩, ⟨1, 0, 0⟩] [⟨1001, 0, 0⟩]) := by decide
  omega

/-- C4 amended: in every configuration with a single reader group and a
single writer group (the only shape the CLI constructs), the derived
per-worker seeds are pairwise distinct across all spawned workers,
whatever the base seed and the group counts. -/
theorem startSpawns_seeds_nodup_single_groups (base : ℤ)
    (dr dw : WeightedDistribution) : (seedsOf base [dr] [dw]).Nodup := by
  simp only [seedsOf, startSpawns, spawnGroups, spawnGroup, totalCount,
    List.map_append, List.map_map, List.map_nil, List.append_nil,
    List.map_cons, List.sum_cons, List.sum_nil]
  refine List.Nodup.append ?_ ?_ ?_
  · refine (List.nodup_range _).map ?_
    intro i j h
    simp only [Function.comp] at h
    omega
  · refine (List.nodup_range _).map ?_
    intro i j h
    simp only [Function.comp] at h
    omega
  · intro a ha hb
    simp only [List.mem_map, List.mem_range, Function.comp] at ha hb
    obtain ⟨i, hi, hia⟩ := ha
    obtain ⟨j, hj, hjb⟩ := hb
    subst hia
    omega

theorem spawnGroup_length (role : Role) (mul base : ℤ) (k t0 : ℕ)
    (d : WeightedDistribution) :
    (spawnGroup role mul base k t0 d).length = d.Count.toNat := by
  simp [spawnGroup]

theorem spawnGroups_length (role : Role) (mul base : ℤ) :
    ∀ (ds : List WeightedDistribution) (k t0 : ℕ),
      (spawnGroups role mul base k t0 ds).length = totalCount ds := by
  intro ds
  induction ds with
  | nil => intro k t0; simp [spawnGroups, totalCount]
  | cons d rest ih =>
    intro k t0
    simp [spawnGroups, totalCount, spawnGroup_length, ih]

theorem mem_spawnGroup (s : Spawn) (role : Role) (mul base : ℤ) (k t0 : ℕ)
    (d : WeightedDistribution) (hs : s ∈ spawnGroup role mul base k t0 d) :
    s.role = role ∧ s.distIdx = k := by
  simp only [spawnGroup, List.mem_map, List.mem_range] at hs
  obtain ⟨i, _, rfl⟩ := hs
  exact ⟨rfl, rfl⟩

theorem mem_spawnGroups (role : Role) (mul base : ℤ) :
    ∀ (ds : List WeightedDistribution) (k t0 : ℕ) (s : Spawn),
      s ∈ spawnGroups role mul base k t0 ds → s.role = role ∧ k ≤ s.distIdx := by
  intro ds
  induction ds with
  | nil => intro k t0 s hs; simp [spawnGroups] at hs
  | cons d rest ih =>
    intro k t0 s hs
    simp only [spawnGroups, List.mem_append] at hs
    rcases hs with hs | hs
    · obtain ⟨h1, h2⟩ := mem_spawnGroup s role mul base k t0 d hs
      exact ⟨h1, h2.ge⟩
    · obtain ⟨h1, h2⟩ := ih (k + 1) (t0 + d.Count.toNat) s hs
      exact ⟨h1, by omega⟩

theorem spawnGroups_countP (role : Role) (mul base : ℤ) :
    ∀ (ds : List WeightedDistribution) (k t0 i : ℕ) (h : i < ds.length),
      ((spawnGroups role mul base k t0 ds).countP
          fun s => decide (s.role = role ∧ s.distIdx = k + i))
        = (ds.get ⟨i, h⟩).Count.toNat := by
  intro ds
  induction ds with
  | nil => intro k t0 i h; simp at h
  | cons d rest ih =>
    intro k t0 i h
    rw [spawnGroups, List.countP_append]
    cases i with
    | zero =>
      have hgrp : ((spawnGroup role mul base k t0 d).countP
          fun s => decide (s.role = role ∧ s.distIdx = k + 0))
            = d.Count.toNat := by
        rw [← spawnGroup_length role mul base k t0 d]
        apply List.countP_eq_length.mpr
        intro s hs
        obtain ⟨h1, h2⟩ := mem_spawnGroup s role mul base k t0 d hs
        simp [h1, h2]
      have hrest : ((spawnGroups role mul base (k + 1) (t0 + d.Count.toNat)
          rest).countP fun s => decide (s.role = role ∧ s.distIdx = k + 0))
            = 0 := by
        apply List.countP_eq_zero.mpr
        intro s hs
        obtain ⟨_, h2⟩ := mem_spawnGroups role mul base rest (k + 1)
          (t0 + d.Count.toNat) s hs
        simp only [decide_eq_true_eq, not_and]
        intro
        omega
      rw [hgrp, hrest]
      simp
    | succ j =>
      have hgrp : ((spawnGroup role mul base k t0 d).countP
          fun s => decide (s.role = role ∧ s.distIdx = k + (j + 1)))
            = 0 := by
        apply List.countP_eq_zero.mpr
        intro s hs
        obtain ⟨_, h2⟩ := mem_spawnGroup s role mul base k t0 d hs
        simp only [decide_eq_true_eq, not_and]
        intro
        omega
      have hk : k + (j + 1) = (k + 1) + j := by omega
      have hrest := ih (k + 1) (t0 + d.Count.toNat) j (by simpa using h)
      rw [hgrp]
      simp only [hk]
      rw [hrest]
      simp

theorem totalCount_cast (ds : List WeightedDistribution)
    (hnn : ∀ d ∈ ds, 0 ≤ d.Count) :
    ((totalCount ds : ℕ) : ℤ) = (ds.map fun d => d.Count).sum := by
  induction ds with
  | nil => simp [totalCount]
  | cons d rest ih =>
    simp only [totalCount, List.map_cons, List.sum_cons] at ih ⊢
    rw [Nat.cast_add, Int.toNat_of_nonneg (hnn d (by simp)),
      ih fun x hx => hnn x (by simp [hx])]

/-- C5: with non-negative configured counts, `Start` spawns exactly `Count`
workers for each configured Distribution (counted from the flat spawn list
by role and group index), spawns all reader groups before all writer
groups, and the total number of spawned workers equals the sum of `Count`
over all reader and writer groups. -/
theorem start_spawn_counts (base : ℤ) (rs ws : List WeightedDistribution)
    (hr : ∀ d ∈ rs, 0 ≤ d.Count) (hw : ∀ d ∈ ws, 0 ≤ d.Count) :
    (((startSpawns base rs ws).length : ℕ) : ℤ)
        = (rs.map fun d => d.Count).sum + (ws.map fun d => d.Count).sum
    ∧ (∀ i (h : i < rs.length),
        ((((startSpawns base rs ws).countP
            fun s => decide (s.role = Role.reader ∧ s.distIdx = i)) : ℕ) : ℤ)
          = (rs.get ⟨i, h⟩).Count)
    ∧ (∀ j (h : j < ws.length),
        ((((startSpawns base rs ws).countP
            fun s => decide (s.role = Role.writer ∧ s.distIdx = j)) : ℕ) : ℤ)
          = (ws.get ⟨j, h⟩).Count)
    ∧ (∃ rpart wpart, startSpawns base rs ws = rpart ++ wpart ∧
        (∀ s ∈ rpart, s.role = Role.reader) ∧
        (∀ s ∈ wpart, s.role = Role.writer)) := by
  refine ⟨?_, ?_, ?_, ?_⟩
  · rw [startSpawns, List.length_append, spawnGroups_length, spawnGroups_length,
      Nat.cast_add, totalCount_cast rs hr, totalCount_cast ws hw]
  · intro i h
    rw [startSpawns, List.countP_append]
    have hwr : ((spawnGroups Role.writer 2000 base 0 (totalCount rs) ws).countP
        fun s => decide (s.role = Role.reader ∧ s.distIdx = i)) = 0 := by
      apply List.countP_eq_zero.mpr
      intro s hs
      have hrole := (mem_spawnGroups Role.writer 2000 base ws 0
        (totalCount rs) s hs).1
      simp [hrole]
    have hrd := spawnGroups_countP Role.reader 1000 base rs 0 0 i h
    simp only [Nat.zero_add] at hrd
    rw [hwr, hrd, Nat.add_zero,
      Int.toNat_of_nonneg (hr _ (rs.get_mem i h))]
  · intro j h
    rw [startSpawns, List.countP_append]
    have hrd : ((spawnGroups Role.reader 1000 base 0 0 rs).countP
        fun s => decide (s.role = Role.writer ∧ s.distIdx = j)) = 0 := by
      apply List.countP_eq_zero.mpr
      intro s hs
      have hrole := (mem_spawnGroups Role.reader 1000 base rs 0 0 s hs).1
      simp [hrole]
    have hwr := spawnGroups_countP Role.writer 2000 base ws 0 (totalCount rs) j h
    simp only [Nat.zero_add] at hwr
    rw [hrd, hwr, Nat.zero_add,
      Int.toNat_of_nonneg (hw _ (ws.get_mem j h))]
  · refine ⟨spawnGroups Role.reader 1000 base 0 0 rs,
      spawnGroups Role.writer 2000 base 0 (totalCount rs) ws, rfl, ?_, ?_⟩
    · intro s hs
      exact (mem_spawnGroups Role.reader 1000 base rs 0 0 s hs).1
    · intro s hs
      exact (mem_spawnGroups Role.writer 2000 base ws 0 (totalCount rs) s hs).1

/-- Witness for C5: the default CLI configuration shape, 2 readers in one
group and 1 writer in one group, base seed 42. -/
theorem start_spawn_counts_witness :
    (((startSpawns 42 [⟨2, 0, 0⟩] [⟨1, 0, 0⟩]).length : ℕ) : ℤ)
        = (([⟨2, 0, 0⟩] : List WeightedDistribution).map fun d => d.Count).sum
          + (([⟨1, 0, 0⟩] : List WeightedDistribution).map fun d => d.Count).sum
    ∧ (∀ i (h : i < ([⟨2, 0, 0⟩] : List WeightedDistribution).length),
        ((((startSpawns 42 [⟨2, 0, 0⟩] [⟨1, 0, 0⟩]).countP
            fun s => decide (s.role = Role.reader ∧ s.distIdx = i)) : ℕ) : ℤ)
          = (([⟨2, 0, 0⟩] : List WeightedDistribution).get ⟨i, h⟩).Count)
    ∧ (∀ j (h : j < ([⟨1, 0, 0⟩] : List WeightedDistribution).length),
        ((((startSpawns 42 [⟨2, 0, 0⟩] [⟨1, 0, 0⟩]).countP
            fun s => decide (s.role = Role.writer ∧ s.distIdx = j)) : ℕ) : ℤ)
          = (([⟨1, 0, 0⟩] : List WeightedDistribution).get ⟨j, h⟩).Count)
    ∧ (∃ rpart wpart, startSpawns 42 [⟨2, 0, 0⟩] [⟨1, 0, 0⟩] = rpart ++ wpart ∧
        (∀ s ∈ rpart, s.role = Role.reader) ∧
        (∀ s ∈ wpart, s.role = Role.writer)) :=
  start_spawn_counts 42 [⟨2, 0, 0⟩] [⟨1, 0, 0⟩]
    (by intro d hd; rw [List.mem_singleton] at hd; subst hd; norm_num)
    (by intro d hd; rw [List.mem_singleton] at hd; subst hd; norm_num)

theorem runReaderLoop_eq (env : WorkerEnv) (catalog : String)
    (tables : List TableInfo) (dist : WeightedDistribution) (thread : ℕ) :
    ∀ (f n : ℕ) (g : Rng),
      runReaderLoop env catalog tables dist thread g n f
        = (List.range (loopAttempts env f n)).map fun k =>
            WEvent.send (readerMkOp env catalog tables dist thread (n + k)
              (rngIter dist (tables.length : ℤ) k g)) := by
  intro f
  induction f with
  | zero => intro n g; simp [runReaderLoop, loopAttempts]
  | succ f ih =>
    intro n g
    simp only [runReaderLoop, loopAttempts]
    by_cases hd : env.doneAt n = true
    · simp [hd]
    · by_cases hr : env.rpsDone n = true
      · simp [hd, hr]
      · simp only [if_neg hd, if_neg hr]
        rw [List.range_succ_eq_map, List.map_cons, List.map_map,
          ih (n + 1) (sampleTableIndex g dist (tables.length : ℤ)).2]
        refine List.cons_eq_cons.mpr ⟨?_, ?_⟩
        · simp [readerMkOp, rngIter]
        · refine List.map_congr_left ?_
          intro k hk
          have hnk : (n + 1) + k = n + Nat.succ k := by omega
          simp only [Function.comp_apply, hnk]
          rfl

theorem runWriterLoop_eq (env : WorkerEnv) (catalog : String)
    (tables : List TableInfo) (dist : WeightedDistribution) (thread : ℕ) :
    ∀ (f n : ℕ) (g : Rng),
      runWriterLoop env catalog tables dist thread g n f
        = (List.range (loopAttempts env f n)).map fun k =>
            WEvent.send (writerMkOp env catalog tables dist thread (n + k)
              (rngIter dist (tables.length : ℤ) k g)) := by
  intro f
  induction f with
  | zero => intro n g; simp [runWriterLoop, loopAttempts]
  | succ f ih =>
    intro n g
    simp only [runWriterLoop, loopAttempts]
    by_cases hd : env.doneAt n = true
    · simp [hd]
    · by_cases hr : env.rpsDone n = true
      · simp [hd, hr]
      · simp only [if_neg hd, if_neg hr]
        rw [List.range_succ_eq_map, List.map_cons, List.map_map,
          ih (n + 1) (sampleTableIndex g dist (tables.length : ℤ)).2]
        refine List.cons_eq_cons.mpr ⟨?_, ?_⟩
        · simp [writerMkOp, rngIter]
        · refine List.map_congr_left ?_
          intro k hk
          have hnk : (n + 1) + k = n + Nat.succ k := by omega
          simp only [Function.comp_apply, hnk]
          rfl

theorem sentOps_map_send {α : Type} (l : List α) (f : α → Operation) :
    sentOps (l.map fun a => WEvent.send (f a)) = l.map f := by
  induction l with
  | nil => rfl
  | cons a l ih =>
    simp only [sentOps, List.map_cons, List.filterMap_cons] at ih ⊢
    rw [ih]

theorem sentOps_runReader (env : WorkerEnv) (catalog : String)
    (tables : List TableInfo) (dist : WeightedDistribution) (thread : ℕ)
    (g : Rng) (fuel : ℕ) :
    sentOps (runReader env catalog tables dist thread g fuel)
      = (List.range (loopAttempts env fuel 0)).map fun k =>
          readerMkOp env catalog tables dist thread k
            (rngIter dist (tables.length : ℤ) k g) := by
  rw [runReader, runReaderLoop_eq]
  have : sentOps (WEvent.recvStart :: ((List.range (loopAttempts env fuel 0)).map
      fun k => WEvent.send (readerMkOp env catalog tables dist thread (0 + k)
        (rngIter dist (tables.length : ℤ) k g))))
      = sentOps ((List.range (loopAttempts env fuel 0)).map
          fun k => WEvent.send (readerMkOp env catalog tables dist thread (0 + k)
            (rngIter dist (tables.length : ℤ) k g))) := rfl
  rw [this, sentOps_map_send]
  simp only [Nat.zero_add]

theorem sentOps_runWriter (env : WorkerEnv) (catalog : String)
    (tables : List TableInfo) (dist : WeightedDistribution) (thread : ℕ)
    (g : Rng) (fuel : ℕ) :
    sentOps (runWriter env catalog tables dist thread g fuel)
      = (List.range (loopAttempts env fuel 0)).map fun k =>
          writerMkOp env catalog tables dist thread k
            (rngIter dist (tables.length : ℤ) k g) := by
  rw [runWriter, runWriterLoop_eq]
  have : sentOps (WEvent.recvStart :: ((List.range (loopAttempts env fuel 0)).map
      fun k => WEvent.send (writerMkOp env catalog tables dist thread (0 + k)
        (rngIter dist (tables.length : ℤ) k g))))
      = sentOps ((List.range (loopAttempts env fuel 0)).map
          fun k => WEvent.send (writerMkOp env catalog tables dist thread (0 + k)
            (rngIter dist (tables.length : ℤ) k g))) := rfl
  rw [this, sentOps_map_send]
  simp only [Nat.zero_add]

/-- C6: no Operation is sent to the Collector sink before the start signal
is received: in both the reader and the writer trace, every send event is
preceded by the receive on the start channel. -/
theorem no_send_before_start (env : WorkerEnv) (catalog : String)
    (tables : List TableInfo) (dist : WeightedDistribution) (thread : ℕ)
    (g : Rng) (fuel : ℕ) :
    (∀ (i : ℕ) (op : Operation),
      (runReader env catalog tables dist thread g fuel)[i]? = some (WEvent.send op) →
      ∃ j : ℕ, j < i ∧
        (runReader env catalog tables dist thread g fuel)[j]? = some WEvent.recvStart)
    ∧ (∀ (i : ℕ) (op : Operation),
      (runWriter env catalog tables dist thread g fuel)[i]? = some (WEvent.send op) →
      ∃ j : ℕ, j < i ∧
        (runWriter env catalog tables dist thread g fuel)[j]? = some WEvent.recvStart) := by
  constructor
  · intro i op h
    cases i with
    | zero => rw [runReader] at h; simp at h
    | succ i => exact ⟨0, Nat.succ_pos i, by rw [runReader]; simp⟩
  · intro i op h
    cases i with
    | zero => rw [runWriter] at h; simp at h
    | succ i => exact ⟨0, Nat.succ_pos i, by rw [runWriter]; simp⟩

/-- C7: assuming the worker's successive `time.Now()` readings are
monotone (Go guarantees this via the monotonic clock) and the external
client's error strings are non-empty, every Operation a reader or writer
emits satisfies `End ≥ Start`; the i-th sent Operation carries an error
string iff the i-th client request failed; and the number of Operations
sent equals the number of request attempts (exactly one send per attempt,
for both success and failure). -/
theorem worker_operation_invariants (env : WorkerEnv) (catalog : String)
    (tables : List TableInfo) (dist : WeightedDistribution) (thread : ℕ)
    (g : Rng) (fuel : ℕ)
    (hclock : Monotone env.clock)
    (herr : ∀ n s, env.reqErr n = some s → s ≠ "") :
    (∀ op ∈ sentOps (runReader env catalog tables dist thread g fuel),
        op.Start ≤ op.End)
    ∧ (∀ (i : ℕ) (op : Operation),
        (sentOps (runReader env catalog tables dist thread g fuel))[i]? = some op →
        (op.Err ≠ "" ↔ (env.reqErr i).isSome))
    ∧ (sentOps (runReader env catalog tables dist thread g fuel)).length
        = loopAttempts env fuel 0
    ∧ (∀ op ∈ sentOps (runWriter env catalog tables dist thread g fuel),
        op.Start ≤ op.End)
    ∧ (∀ (i : ℕ) (op : Operation),
        (sentOps (runWriter env catalog tables dist thread g fuel))[i]? = some op →
        (op.Err ≠ "" ↔ (env.reqErr i).isSome))
    ∧ (sentOps (runWriter env catalog tables dist thread g fuel)).length
        = loopAttempts env fuel 0 := by
  refine ⟨?_, ?_, ?_, ?_, ?_, ?_⟩
  · intro op hop
    rw [sentOps_runReader] at hop
    obtain ⟨k, _, rfl⟩ := List.mem_map.mp hop
    exact hclock (by omega : 2 * k ≤ 2 * k + 1)
  · intro i op h
    rw [sentOps_runReader, List.getElem?_map] at h
    obtain ⟨m, hm, rfl⟩ := Option.map_eq_some'.mp h
    obtain ⟨hlt, hget⟩ := List.getElem?_eq_some_iff.mp hm
    rw [List.getElem_range] at hget
    subst hget
    simp only [readerMkOp, errString]
    cases hreq : env.reqErr i with
    | none => simp [hreq]
    | some s => simp [hreq, herr i s hreq]
  · rw [sentOps_runReader]; simp
  · intro op hop
    rw [sentOps_runWriter] at hop
    obtain ⟨k, _, rfl⟩ := List.mem_map.mp hop
    exact hclock (by omega : 3 * k + 1 ≤ 3 * k + 2)
  · intro i op h
    rw [sentOps_runWriter, List.getElem?_map] at h
    obtain ⟨m, hm, rfl⟩ := Option.map_eq_some'.mp h
    obtain ⟨hlt, hget⟩ := List.getElem?_eq_some_iff.mp hm
    rw [List.getElem_range] at hget
    subst hget
    simp only [writerMkOp, errString]
    cases hreq : env.reqErr i with
    | none => simp [hreq]
    | some s => simp [hreq, herr i s hreq]
  · rw [sentOps_runWriter]; simp

/-- C8: if the resolved target universe is empty, `Prepare` returns the
descriptive configuration error (so a zero-target run fails before
`Start`); if the universe is non-empty but the connectivity probe against
its first target fails with transport error `e`, `Prepare` returns `e`
wrapped with context; and `Prepare` can only succeed on a non-empty
universe. -/
theorem prepare_error_behaviour (catalog : String) (env : PrepareEnv) :
    (env.tables = [] →
      Prepare catalog env
        = Except.error (PrepError.config "no tables found: check tree configuration"))
    ∧ (∀ t rest e, env.tables = t :: rest →
        env.getTable catalog t.Namespace t.Name = some e →
        Prepare catalog env
          = Except.error (PrepError.wrapped "cannot access table" e))
    ∧ (∀ res, Prepare catalog env = Except.ok res → env.tables ≠ []) := by
  refine ⟨?_, ?_, ?_⟩
  · intro hempty
    rw [Prepare, hempty]
  · intro t rest e htab hprobe
    rw [Prepare, htab]
    dsimp only
    rw [hprobe]
  · intro res hok hempty
    rw [Prepare, hempty] at hok
    exact Except.noConfusion hok

/-- Witness for C8: an empty-universe environment yields the configuration
error, and a one-table environment whose probe fails yields the wrapped
transport error. -/
theorem prepare_error_behaviour_witness :
    (Prepare "c" ⟨[], fun _ _ _ => none⟩
        = Except.error (PrepError.config "no tables found: check tree configuration"))
    ∧ (Prepare "c" ⟨[⟨"ns", "t"⟩], fun _ _ _ => some "boom"⟩
        = Except.error (PrepError.wrapped "cannot access table" "boom")) :=
  ⟨(prepare_error_behaviour "c" ⟨[], fun _ _ _ => none⟩).1 rfl,
    (prepare_error_behaviour "c" ⟨[⟨"ns", "t"⟩], fun _ _ _ => some "boom"⟩).2.1
      ⟨"ns", "t"⟩ [] "boom" rfl rfl⟩

/-- C10: `Cleanup` of the weighted workload leaves the benchmark state
unchanged and issues zero calls to the external catalog client — its only
effect is a status report. -/
theorem cleanup_noop (tables : List TableInfo) :
    (Cleanup tables).1 = tables ∧
      (Cleanup tables).2.countP isClientCall = 0 ∧
      (Cleanup tables).2
        = [Effect.status "Cleanup: skipping (weighted benchmark does not delete data)"] :=
  ⟨rfl, rfl, rfl⟩

/-- Witness for C6: in a concrete one-iteration reader run the send at
position 1 is preceded by the start-channel receive at position 0. -/
theorem no_send_before_start_witness :
    ∃ j : ℕ, j < 1 ∧
      (runReader envW "c" [⟨"ns", "t"⟩] ⟨1, 0, 1⟩ 0 ⟨fun _ => 0, 0⟩ 1)[j]?
        = some WEvent.recvStart :=
  (no_send_before_start envW "c" [⟨"ns", "t"⟩] ⟨1, 0, 1⟩ 0 ⟨fun _ => 0, 0⟩ 1).1 1
    (readerMkOp envW "c" [⟨"ns", "t"⟩] ⟨1, 0, 1⟩ 0 0 ⟨fun _ => 0, 0⟩)
    (by
      rw [runReader, List.getElem?_cons_succ, runReaderLoop_eq]
      rfl)

/-- Witness for C7: the concrete environment has a monotone clock and
non-empty error strings (vacuously, as every request succeeds), so the
invariants hold of a concrete two-iteration run. -/
theorem worker_operation_invariants_witness :
    (sentOps (runReader envW "c" [⟨"ns", "t"⟩] ⟨1, 0, 1⟩ 0 ⟨fun _ => 0, 0⟩ 2)).length
      = loopAttempts envW 2 0 :=
  (worker_operation_invariants envW "c" [⟨"ns", "t"⟩] ⟨1, 0, 1⟩ 0 ⟨fun _ => 0, 0⟩ 2
    monotone_const (fun _ _ h => Option.noConfusion h)).2.2.1

end Warp
